import Mathlib

/-!
Verification of the DuckMSI macro template registry and dependency-driven
activation subsystem: a shallow embedding of the table mapper, macro
generator, macro loader and template catalog view, with proofs of the
behavioural properties stated for them.

JavaScript strings are modelled as `List Char`; JS `Map` objects and plain
objects used as dictionaries are modelled as insertion-ordered association
lists; the asynchronous DuckDB connection is modelled as a function from SQL
text to `Except` (resolution or rejection).
-/

set_option maxRecDepth 16384

namespace DuckMSI

/-- The left-brace character, written via its code point. -/
def lb : Char := '\x7b'

/-- The right-brace character, written via its code point. -/
def rb : Char := '\x7d'

/-- Substring test on character lists: does `p` occur contiguously in `s`?
Models JavaScript `String.prototype.includes`. -/
def hasSub (p : List Char) : List Char → Bool
  | [] => p.isEmpty
  | c :: rest => p.isPrefixOf (c :: rest) || hasSub p rest

/-- `includesStr s sub`: JS `s.includes(sub)`. -/
def includesStr (s sub : String) : Bool := hasSub sub.toList s.toList

/-- ASCII lower-casing of one character, modelling JS `toLowerCase` on the
ASCII range used by the registry. -/
def lowerChar (c : Char) : Char :=
  if 65 ≤ c.toNat ∧ c.toNat ≤ 90 then Char.ofNat (c.toNat + 32) else c

/-- JS `String.prototype.toLowerCase` (ASCII model). -/
def jsToLower (s : String) : String := (s.toList.map lowerChar).asString

/-- Scanning loop for `replaceAll`, structurally recursive on a fuel bound
(one unit of fuel per input character examined, so `s.length` fuel always
suffices). -/
def replaceAllAux (p r : List Char) : Nat → List Char → List Char
  | _, [] => []
  | 0, s => s
  | fuel + 1, c :: rest =>
    if p ≠ [] ∧ p.isPrefixOf (c :: rest) then
      r ++ replaceAllAux p r fuel ((c :: rest).drop p.length)
    else
      c :: replaceAllAux p r fuel rest

/-- Leftmost, non-overlapping replacement of every occurrence of pattern `p`
by `r` in `s`; models JS `String.prototype.replace` with a global regex whose
pattern is the literal text `p` (the code only builds such regexes from
`\w`-word placeholder names, for which regex and literal matching agree). -/
def replaceAll (p r s : List Char) : List Char := replaceAllAux p r s.length s

/-- Whitespace class of JS `String.prototype.trim` (ASCII model). -/
def jsWs (c : Char) : Bool :=
  c == ' ' || c == '\t' || c == '\n' || c == '\r' || c == '\x0b' || c == '\x0c'

/-- JS `trim`: drop whitespace from both ends. -/
def trimChars (s : List Char) : List Char :=
  ((s.dropWhile jsWs).reverse.dropWhile jsWs).reverse

/-- JS `sql.split('\n')`: split into lines at every newline. -/
def splitLines : List Char → List (List Char)
  | [] => [[]]
  | c :: rest =>
    match splitLines rest with
    | [] => [[]]
    | l :: ls => if c = '\n' then [] :: l :: ls else (c :: l) :: ls

/-- JS `lines.join('\n')`. -/
def joinLines : List (List Char) → List Char
  | [] => []
  | [l] => l
  | l :: ls => l ++ '\n' :: joinLines ls

/-- JS `parts.join(', ')`, used for the macro parameter signature. -/
def joinComma : List (List Char) → List Char
  | [] => []
  | [x] => x
  | x :: xs => x ++ ',' :: ' ' :: joinComma xs

/-- `line.trim().startsWith('--')`: the comment-line test of `generateMacroSQL`. -/
def lineIsComment (line : List Char) : Bool :=
  ['-', '-'].isPrefixOf (trimChars line)

/-- The comment-stripping prefix of `generateMacroSQL`:
`sql.split('\n').filter(line => !line.trim().startsWith('--')).join('\n').trim()`. -/
def stripComments (s : List Char) : List Char :=
  trimChars (joinLines ((splitLines s).filter (fun l => !lineIsComment l)))

/-- `braceFree s`: `s` contains neither brace character. -/
def braceFree (s : List Char) : Bool := s.all (fun c => !(c == lb) && !(c == rb))

/-- `wordish s`: `s` is a nonempty run of regex `\w` word characters
(letters, digits, underscore) — the shape of every placeholder and parameter
name in the catalog, for which the dynamically built regex
`\{\{name\}\}` matches exactly the literal text. -/
def wordish (s : List Char) : Bool :=
  !s.isEmpty && s.all (fun c => c.isAlphanum || c == '_')

/-- The literal text matched by the code's regex `\{\{name\}\}`. -/
def phPattern (n : List Char) : List Char := lb :: lb :: (n ++ [rb, rb])

/-- A segment of a SQL template body: either literal text or one
`{{name}}` placeholder occurrence. Used to state which strings a
template body can be. -/
inductive Seg where
  | lit : List Char → Seg
  | ph : List Char → Seg
deriving Repr, DecidableEq

/-- Flatten a segment list back to the raw template text. -/
def render : List Seg → List Char
  | [] => []
  | Seg.lit s :: rest => s ++ render rest
  | Seg.ph n :: rest => phPattern n ++ render rest

/-- Well-formedness of one segment: literal text has no braces, a placeholder
name is a nonempty `\w` word. -/
def wfSeg : Seg → Bool
  | Seg.lit s => braceFree s
  | Seg.ph n => wordish n

/-- Well-formedness of a whole body decomposition. -/
def wfSegs (segs : List Seg) : Bool := segs.all wfSeg

/-- Replace every placeholder named `n` by literal text `v`. -/
def substPh (n v : List Char) (segs : List Seg) : List Seg :=
  segs.map fun s =>
    match s with
    | Seg.ph m => if m = n then Seg.lit v else Seg.ph m
    | Seg.lit l => Seg.lit l

/-! ## Data model: catalog macros, parameters, and mapping state -/

/-- A formal macro parameter: name and optional declared default (the JS
`default` field, absent modelled as `none`; numeric defaults are modelled by
their decimal text, which is how they are interpolated into SQL). -/
structure Param where
  name : String
  default : Option String
deriving Repr, DecidableEq

/-- A macro definition from the generated registry (`macro-registry.js`). -/
structure Macro where
  id : String
  name : String
  description : String
  category : String
  depends_on : List String
  parameters : List Param
  sqlTemplate : String
deriving Repr, DecidableEq

/-- The catalog, modelling `Object.values(macros)` in registry order. -/
abbrev Catalog := List Macro

/-- `macros[macroId]` lookup by id. -/
def macroById (cat : Catalog) (macroId : String) : Option Macro :=
  cat.find? (fun m => m.id == macroId)

/-- The JS `Map` of the table mapper (and the plain object produced by
`getAllMappings`), as an insertion-ordered association list. -/
abbrev Mappings := List (String × String)

/-- `Map.prototype.get` / own-property read: value at the first (unique)
matching key. -/
def mget (m : Mappings) (k : String) : Option String :=
  match m with
  | [] => none
  | (k', v) :: rest => if k' = k then some v else mget rest k

/-- `Map.prototype.set`: overwrite in place, or append a new entry
(JS maps keep the original insertion position on overwrite). -/
def mset (m : Mappings) (k v : String) : Mappings :=
  match m with
  | [] => [(k, v)]
  | (k', v') :: rest => if k' = k then (k', v) :: rest else (k', v') :: mset rest k v

/-- `Map.prototype.delete`. -/
def mdelete (m : Mappings) (k : String) : Mappings :=
  match m with
  | [] => []
  | (k', v') :: rest => if k' = k then rest else (k', v') :: mdelete rest k

/-- JS truthiness of `mappings[dep]`: `undefined` and the empty string are
falsy; every other string is truthy. -/
def truthy : Option String → Bool
  | none => false
  | some t => t ≠ ""

/-! ## Table mapper (`table-mapper.js`)

Each mutating operation returns the new mapping state together with the
list of notifications it passes to `_notifyListeners`, in emission order.
A notification carries `(event, placeholder, newValue, previousValue)`;
JS `null`/`undefined` arguments are modelled as `none`. -/

/-- One `_notifyListeners(event, placeholder, newValue, previousValue)` call. -/
structure Notif where
  event : String
  placeholder : String
  newValue : Option String
  previousValue : Option String
deriving Repr, DecidableEq

/-- `TableMapper.mapTable`: read the previous value, set, then notify. -/
def mapTable (m : Mappings) (placeholder actualTable : String) :
    Mappings × List Notif :=
  let previousValue := mget m placeholder
  (mset m placeholder actualTable,
    [⟨"map", placeholder, some actualTable, previousValue⟩])

/-- `TableMapper.unmapTable`: delete and notify only if present. -/
def unmapTable (m : Mappings) (placeholder : String) : Mappings × List Notif :=
  let previousValue := mget m placeholder
  if previousValue.isSome then
    (mdelete m placeholder, [⟨"unmap", placeholder, none, previousValue⟩])
  else
    (m, [])

/-- `TableMapper.unmapByActualTable`: scan entries in insertion order, unmap
the first whose value equals `actualTable`, return its placeholder. -/
def unmapByActualTable (m : Mappings) (actualTable : String) :
    Mappings × List Notif × Option String :=
  match m.find? (fun p => p.2 == actualTable) with
  | some p =>
    let r := unmapTable m p.1
    (r.1, r.2, some p.1)
  | none => (m, [], none)

/-- `TableMapper.clearAll`: snapshot the mappings, clear, then emit one
`unmap` notification per previously mapped entry, in insertion order. -/
def clearAll (m : Mappings) : Mappings × List Notif :=
  ([], m.map (fun p => ⟨"unmap", p.1, none, some p.2⟩))

/-- `TableMapper.autoMap`, parameterized by `Object.keys(tables)` of the
registry: exact (lower-cased) match first, allowed to overwrite; otherwise
the first substring match in either direction that is not already mapped. -/
def autoMap (roleNames : List String) (m : Mappings) (uploadedTableName : String) :
    Mappings × List Notif × Option String :=
  let normalized := jsToLower uploadedTableName
  match roleNames.find? (fun ph => normalized == ph) with
  | some ph =>
    let r := mapTable m ph uploadedTableName
    (r.1, r.2, some ph)
  | none =>
    match roleNames.find? (fun ph =>
        (includesStr normalized ph || includesStr ph normalized)
          && !(mget m ph).isSome) with
    | some ph =>
      let r := mapTable m ph uploadedTableName
      (r.1, r.2, some ph)
    | none => (m, [], none)

/-- Sequence of `unmapTable` calls, one per role, accumulating notifications:
the reference behaviour `clear()` is claimed to be equivalent to. -/
def unbindEach (m : Mappings) : List String → Mappings × List Notif
  | [] => (m, [])
  | r :: rs =>
    let step := unmapTable m r
    let rest := unbindEach step.1 rs
    (rest.1, step.2 ++ rest.2)

/-- Pair every notification of a batch with the mapping state in which the
listeners receive it (the code mutates first, then synchronously notifies, so
all notifications of one operation are delivered in the post-mutation state). -/
def deliveredIn (s : Mappings) (ns : List Notif) : List (Notif × Mappings) :=
  ns.map (fun n => (n, s))

/-- `mapTable` together with the state its notifications are delivered in. -/
def mapTableDelivered (m : Mappings) (role table : String) :
    Mappings × List (Notif × Mappings) :=
  let r := mapTable m role table
  (r.1, deliveredIn r.1 r.2)

/-- `unmapTable` together with the state its notifications are delivered in. -/
def unmapTableDelivered (m : Mappings) (role : String) :
    Mappings × List (Notif × Mappings) :=
  let r := unmapTable m role
  (r.1, deliveredIn r.1 r.2)

/-! ## Macro SQL generator (`macro-generator.js`) -/

/-- `generateMacroSQL(mac, tableMappings)`: strip comment lines, replace
each `{{placeholder}}` for every mapping entry, then each `{{param}}` by the
parameter's own name, and wrap in `CREATE OR REPLACE MACRO id(sig) AS TABLE`. -/
def generateMacroSQL (mac : Macro) (tableMappings : Mappings) : String :=
  let sql0 := stripComments mac.sqlTemplate.toList
  let sql1 := tableMappings.foldl
    (fun sql p => replaceAll (phPattern p.1.toList) p.2.toList sql) sql0
  let params := mac.parameters
  let paramSignature := joinComma (params.map (fun p => p.name.toList))
  let sql2 := params.foldl
    (fun sql p => replaceAll (phPattern p.name.toList) p.name.toList sql) sql1
  ("CREATE OR REPLACE MACRO ".toList ++ mac.id.toList
    ++ '(' :: paramSignature ++ ')' :: " AS TABLE\n".toList ++ sql2).asString

/-- `generateMacroInvocation(macro)`: sample `SELECT * FROM id(args)` call,
using declared defaults and single-brace editable tokens. -/
def generateMacroInvocation (mac : Macro) : String :=
  let params := mac.parameters
  if params.isEmpty then
    "SELECT * FROM " ++ mac.id ++ "()"
  else
    let paramList := joinComma (params.map (fun p =>
      match p.default with
      | some v => v.toList
      | none => lb :: (p.name.toList ++ [rb])))
    "SELECT * FROM " ++ mac.id ++ "(" ++ paramList.asString ++ ")"

/-! ## Macro loader (`macro-loader.js`)

The DuckDB connection is a function from SQL text to `Except`: `.ok` models a
resolved `connection.query`, `.error` a rejected one (a thrown engine error,
always caught by the loader). Operations return the new `registeredMacros`
set (an insertion-ordered list) along with the SQL statements issued. -/

abbrev Conn := String → Except String Unit

/-- JS `Set.prototype.add`. -/
def sadd (s : List String) (x : String) : List String :=
  if x ∈ s then s else s ++ [x]

/-- JS `Set.prototype.delete`. -/
def sdel (s : List String) (x : String) : List String := s.erase x

/-- `MacroLoader.registerMacro`: unknown id fails; a dependency whose mapping
is JS-falsy fails with no statement; otherwise execute the generated SQL and
add the id to `registeredMacros` exactly on success. Returns
`(registeredMacros, statements issued, boolean result)`. -/
def registerMacro (cat : Catalog) (conn : Conn) (registered : List String)
    (mappings : Mappings) (macroId : String) :
    List String × List String × Bool :=
  match macroById cat macroId with
  | none => (registered, [], false)
  | some mac =>
    if mac.depends_on.all (fun dep => truthy (mget mappings dep)) then
      let sql := generateMacroSQL mac mappings
      match conn sql with
      | Except.ok _ => (sadd registered macroId, [sql], true)
      | Except.error _ => (registered, [sql], false)
    else
      (registered, [], false)

/-- `MacroLoader.unregisterMacro`: try `DROP MACRO TABLE IF EXISTS`, fall back
to `DROP MACRO IF EXISTS`; the id is deleted from `registeredMacros` in the
two success paths. Returns `(registeredMacros, statements issued)`. -/
def unregisterMacro (conn : Conn) (registered : List String) (macroId : String) :
    List String × List String :=
  let q1 := "DROP MACRO TABLE IF EXISTS " ++ macroId
  match conn q1 with
  | Except.ok _ => (sdel registered macroId, [q1])
  | Except.error _ =>
    let q2 := "DROP MACRO IF EXISTS " ++ macroId
    match conn q2 with
    | Except.ok _ => (sdel registered macroId, [q1, q2])
    | Except.error _ => (registered, [q1, q2])

/-- `MacroLoader.getPendingMacros`: unregistered macros paired with their
missing tables, keeping only those with at least one missing table. -/
def getPendingMacros (cat : Catalog) (registered : List String)
    (mappedTables : List String) : List (Macro × List String) :=
  ((cat.filter (fun mac => !(mac.id ∈ registered))).map
      (fun mac =>
        (mac, mac.depends_on.filter (fun dep => !(dep ∈ mappedTables))))).filter
    (fun item => !item.2.isEmpty)

/-! ## Template catalog view (`templates.js`) -/

/-- A template object handed to the command palette. `missingDependencies` is
`none` for palette objects (the field is absent there) and `some` list for
status objects. -/
structure Template where
  id : String
  title : String
  description : String
  category : String
  sql : String
  parameters : List Param
  depends_on : List String
  available : Bool
  missingDependencies : Option (List String)
deriving Repr, DecidableEq

/-- `getAvailableMacros` from the registry module: macros whose dependencies
are all in the mapped-table set. -/
def getAvailableMacros (cat : Catalog) (mappedTables : List String) : Catalog :=
  cat.filter (fun mac => mac.depends_on.all (fun dep => dep ∈ mappedTables))

/-- The template object built by `getTemplatesForPalette` for one macro. -/
def toPaletteTemplate (mac : Macro) : Template :=
  { id := mac.id, title := mac.name, description := mac.description,
    category := mac.category, sql := generateMacroInvocation mac,
    parameters := mac.parameters, depends_on := mac.depends_on,
    available := true, missingDependencies := none }

/-- `getTemplatesForPalette(mappedTables)`. -/
def getTemplatesForPalette (cat : Catalog) (mappedTables : List String) :
    List Template :=
  (getAvailableMacros cat mappedTables).map toPaletteTemplate

/-- The template object built by `getAllTemplatesWithStatus` for one macro. -/
def toStatusTemplate (mappedTables : List String) (mac : Macro) : Template :=
  let missingDeps := mac.depends_on.filter (fun dep => !(dep ∈ mappedTables))
  { id := mac.id, title := mac.name, description := mac.description,
    category := mac.category, sql := generateMacroInvocation mac,
    parameters := mac.parameters, depends_on := mac.depends_on,
    available := missingDeps.isEmpty, missingDependencies := some missingDeps }

/-- `getAllTemplatesWithStatus(mappedTables)`. -/
def getAllTemplatesWithStatus (cat : Catalog) (mappedTables : List String) :
    List Template :=
  cat.map (toStatusTemplate mappedTables)

/-- The base set `searchTemplates` starts from, per its first statement. -/
def searchBase (cat : Catalog) (mappedTables : List String)
    (includeUnavailable : Bool) : List Template :=
  if includeUnavailable then getAllTemplatesWithStatus cat mappedTables
  else getTemplatesForPalette cat mappedTables

/-- The filter predicate of `searchTemplates` for a query already lower-cased. -/
def searchHit (lowerQuery : String) (t : Template) : Bool :=
  includesStr (jsToLower t.title) lowerQuery
    || includesStr (jsToLower t.description) lowerQuery
    || includesStr (jsToLower t.category) lowerQuery
    || includesStr (jsToLower t.id) lowerQuery

/-- `searchTemplates(query, mappedTables, includeUnavailable)`; the query is
`Option String` so that the JS `null`/`undefined` argument is representable. -/
def searchTemplates (cat : Catalog) (query : Option String)
    (mappedTables : List String) (includeUnavailable : Bool) : List Template :=
  let templates := searchBase cat mappedTables includeUnavailable
  match query with
  | none => templates
  | some q =>
    if q = "" ∨ (trimChars q.toList) = [] then templates
    else
      let lowerQuery := jsToLower q
      templates.filter (searchHit lowerQuery)

/-! ## The concrete generated registry (`macro-registry.js`) -/

/-- The single macro of the generated registry. -/
def casemixMacro : Macro :=
  { id := "get_casemix"
    name := "Casemix (GHM Distribution)"
    description := "Count GHM codes excluding CMD 90 (error codes)"
    category := "casemix"
    depends_on := ["fixe"]
    parameters := []
    sqlTemplate := "-- Macro: get_casemix\n-- Dependencies: fixe\n-- Description: Count GHM codes excluding CMD 90 (error codes)\n\nSELECT\n    ghm2,\n    COUNT(*) AS effectif\nFROM \x7b\x7bfixe\x7d\x7d\nWHERE SUBSTR(ghm2, 1, 2) != '90'\nGROUP BY ghm2\nORDER BY ghm2 ASC" }

/-- `Object.values(macros)` of the generated registry. -/
def registryMacros : Catalog := [casemixMacro]

/-- `Object.keys(tables)` of the generated registry, in declaration order. -/
def tablesKeys : List String := ["fixe", "rss", "rum", "diag", "acte"]

/-- Test fixture: a macro with one parameter carrying declared default `10`. -/
def topDefaultMacro : Macro :=
  { id := "get_top", name := "Top rows", description := "First rows of the table"
    category := "exploration", depends_on := ["fixe"]
    parameters := [⟨"top_n", some "10"⟩]
    sqlTemplate := "SELECT * FROM \x7b\x7bfixe\x7d\x7d LIMIT \x7b\x7btop_n\x7d\x7d" }

/-- Test fixture: the same macro with no declared default. -/
def topNoDefaultMacro : Macro :=
  { id := "get_top", name := "Top rows", description := "First rows of the table"
    category := "exploration", depends_on := ["fixe"]
    parameters := [⟨"top_n", none⟩]
    sqlTemplate := "SELECT * FROM \x7b\x7bfixe\x7d\x7d LIMIT \x7b\x7btop_n\x7d\x7d" }

/-- Test fixture: a macro whose body references the same table placeholder
twice. -/
def doubleRefMacro : Macro :=
  { id := "get_double", name := "Self join", description := "Join the table with itself"
    category := "exploration", depends_on := ["fixe"], parameters := []
    sqlTemplate := "SELECT a FROM \x7b\x7bfixe\x7d\x7d JOIN \x7b\x7bfixe\x7d\x7d USING (a)" }

/-- `dollarFree s`: `s` contains no dollar sign, so that it means the same as
a JS replacement string (where `$&`-style patterns are special). -/
def dollarFree (s : List Char) : Bool := s.all (fun c => !(c == '$'))

/-- The table-substitution fold of `generateMacroSQL`, on the segment view. -/
def substFoldTables (ms : Mappings) (segs : List Seg) : List Seg :=
  ms.foldl (fun sg p => substPh p.1.toList p.2.toList sg) segs

/-- The parameter-substitution fold of `generateMacroSQL`, on the segment view. -/
def substFoldParams (params : List Param) (segs : List Seg) : List Seg :=
  params.foldl (fun sg p => substPh p.name.toList p.name.toList sg) segs

/-- Net effect of the table-substitution loop on one segment: a placeholder
becomes the concrete table of the first mapping entry whose key spells its
name. -/
def resolveTable (ms : Mappings) : Seg → Seg
  | Seg.ph n =>
    match ms.find? (fun p => p.1.toList == n) with
    | some p => Seg.lit p.2.toList
    | none => Seg.ph n
  | Seg.lit l => Seg.lit l

/-- Net effect of the parameter-substitution loop on one segment: a parameter
placeholder becomes the parameter's own name. -/
def resolveParam (params : List Param) : Seg → Seg
  | Seg.ph n =>
    if params.any (fun q => q.name.toList == n) then Seg.lit n else Seg.ph n
  | Seg.lit l => Seg.lit l

/-- Net effect of both substitution loops on one segment. -/
def resolveSeg (ms : Mappings) (params : List Param) : Seg → Seg
  | Seg.ph n =>
    match ms.find? (fun p => p.1.toList == n) with
    | some p => Seg.lit p.2.toList
    | none =>
      if params.any (fun q => q.name.toList == n) then Seg.lit n else Seg.ph n
  | Seg.lit l => Seg.lit l

/-- The specification's notion of "the query is a case-insensitive substring
of `s`": the lower-cased query occurs contiguously inside the lower-cased
field, stated as an explicit decomposition. -/
def ciSubstringOf (q s : String) : Prop :=
  ∃ pre post : List Char,
    (jsToLower s).toList = pre ++ (jsToLower q).toList ++ post

/-- The specification's search predicate: the query is a case-insensitive
substring of the template title, description, category, or identifier. -/
def ciMatch (q : String) (t : Template) : Prop :=
  ciSubstringOf q t.title ∨ ciSubstringOf q t.description
    ∨ ciSubstringOf q t.category ∨ ciSubstringOf q t.id


/-! ## Proofs -/

theorem replaceAllAux_eq (p r : List Char) (fuel : Nat) :
    ∀ s : List Char, s.length ≤ fuel → replaceAllAux p r fuel s = replaceAll p r s := by
  induction fuel using Nat.strong_induction_on with
  | _ fuel ih =>
    intro s hs
    cases s with
    | nil => cases fuel <;> rfl
    | cons c rest =>
      cases fuel with
      | zero => simp at hs
      | succ n =>
        simp only [List.length_cons] at hs
        show _ = replaceAllAux p r (rest.length + 1) (c :: rest)
        simp only [replaceAllAux]
        by_cases hc : p ≠ [] ∧ p.isPrefixOf (c :: rest)
        · rw [if_pos hc, if_pos hc]
          have hp : 1 ≤ p.length := by
            cases hq : p with
            | nil => exact absurd hq hc.1
            | cons a b => simp
          have hd : ((c :: rest).drop p.length).length ≤ rest.length := by
            simp only [List.length_drop, List.length_cons]
            omega
          rw [ih n (by omega) _ (le_trans hd (by omega)),
            ih rest.length (by omega) _ hd]
        · rw [if_neg hc, if_neg hc]
          exact congrArg (c :: ·) (ih n (by omega) rest (by omega))

theorem replaceAll_cons_pos (p r : List Char) (c : Char) (rest : List Char)
    (h1 : p ≠ []) (h2 : p.isPrefixOf (c :: rest)) :
    replaceAll p r (c :: rest) = r ++ replaceAll p r ((c :: rest).drop p.length) := by
  show replaceAllAux p r (rest.length + 1) (c :: rest) = _
  simp only [replaceAllAux, if_pos (And.intro h1 h2)]
  have hp : 1 ≤ p.length := by
    cases hq : p with
    | nil => exact absurd hq h1
    | cons a b => simp
  have hd : ((c :: rest).drop p.length).length ≤ rest.length := by
    simp only [List.length_drop, List.length_cons]
    omega
  rw [replaceAllAux_eq p r rest.length _ hd]

theorem replaceAll_cons_neg (p r : List Char) (c : Char) (rest : List Char)
    (h : ¬(p ≠ [] ∧ p.isPrefixOf (c :: rest))) :
    replaceAll p r (c :: rest) = c :: replaceAll p r rest := by
  show replaceAllAux p r (rest.length + 1) (c :: rest) = _
  simp only [replaceAllAux, if_neg h]
  rw [replaceAllAux_eq p r rest.length rest le_rfl]

/-! ### String structure helpers -/

theorem strData (a b : String) : (a ++ b).data = a.data ++ b.data := rfl

theorem strExt {a b : String} (h : a.data = b.data) : a = b :=
  congrArg String.mk h

/-! ### Association-list helpers -/

theorem mget_eq_none_of_not_key (m : Mappings) (k : String)
    (h : ∀ p ∈ m, p.1 ≠ k) : mget m k = none := by
  induction m with
  | nil => rfl
  | cons p rest ih =>
    obtain ⟨k', v⟩ := p
    simp only [mget]
    rw [if_neg (h _ (List.mem_cons_self _ _)), ih]
    intro q hq
    exact h q (List.mem_cons_of_mem _ hq)

theorem mget_mset_self (m : Mappings) (k v : String) :
    mget (mset m k v) k = some v := by
  induction m with
  | nil => simp [mset, mget]
  | cons p rest ih =>
    obtain ⟨k', v'⟩ := p
    by_cases h : k' = k
    · simp [mset, mget, h]
    · simp [mset, mget, h, ih]

theorem mget_mset_ne (m : Mappings) (k v k' : String) (h : k' ≠ k) :
    mget (mset m k v) k' = mget m k' := by
  induction m with
  | nil =>
    simp only [mset, mget]
    rw [if_neg (Ne.symm h)]
  | cons p rest ih =>
    obtain ⟨k'', v''⟩ := p
    by_cases hk : k'' = k
    · subst hk
      simp only [mset, if_pos rfl, mget]
      rw [if_neg (fun hh => h hh.symm), if_neg (fun hh => h hh.symm)]
    · simp only [mset, if_neg hk, mget]
      by_cases hk2 : k'' = k'
      · rw [if_pos hk2, if_pos hk2]
      · rw [if_neg hk2, if_neg hk2, ih]

theorem mget_mdelete_self (m : Mappings) (k : String)
    (hnd : (m.map Prod.fst).Nodup) : mget (mdelete m k) k = none := by
  induction m with
  | nil => rfl
  | cons p rest ih =>
    obtain ⟨k', v⟩ := p
    simp only [List.map_cons, List.nodup_cons] at hnd
    by_cases h : k' = k
    · subst h
      simp only [mdelete, if_pos rfl]
      apply mget_eq_none_of_not_key
      intro q hq heq
      exact hnd.1 (heq ▸ List.mem_map_of_mem Prod.fst hq)
    · simp only [mdelete, if_neg h, mget, if_neg h]
      exact ih hnd.2

theorem mget_append_of_not_key (pre m : Mappings) (k : String)
    (h : ∀ p ∈ pre, p.1 ≠ k) : mget (pre ++ m) k = mget m k := by
  induction pre with
  | nil => rfl
  | cons p rest ih =>
    obtain ⟨k', v⟩ := p
    show mget ((k', v) :: (rest ++ m)) k = mget m k
    simp only [mget]
    rw [if_neg (h _ (List.mem_cons_self _ _))]
    exact ih (fun q hq => h q (List.mem_cons_of_mem _ hq))

theorem mdelete_append_of_not_key (pre m : Mappings) (k : String)
    (h : ∀ p ∈ pre, p.1 ≠ k) : mdelete (pre ++ m) k = pre ++ mdelete m k := by
  induction pre with
  | nil => rfl
  | cons p rest ih =>
    obtain ⟨k', v⟩ := p
    show mdelete ((k', v) :: (rest ++ m)) k = (k', v) :: (rest ++ mdelete m k)
    simp only [mdelete]
    rw [if_neg (h _ (List.mem_cons_self _ _))]
    rw [ih (fun q hq => h q (List.mem_cons_of_mem _ hq))]

theorem find?_append_of_none {α : Type} (pre m : List α) (pred : α → Bool)
    (h : ∀ x ∈ pre, pred x = false) :
    (pre ++ m).find? pred = m.find? pred := by
  induction pre with
  | nil => rfl
  | cons x rest ih =>
    simp only [List.cons_append, List.find?]
    rw [h x (List.mem_cons_self _ _)]
    exact ih (fun y hy => h y (List.mem_cons_of_mem _ hy))

theorem unbindEach_all_keys (m : Mappings) :
    unbindEach m (m.map Prod.fst) =
      ([], m.map (fun p => ⟨"unmap", p.1, none, some p.2⟩)) := by
  induction m with
  | nil => rfl
  | cons p rest ih =>
    obtain ⟨k, v⟩ := p
    show unbindEach ((k, v) :: rest) (k :: rest.map Prod.fst) = _
    have hstep : unmapTable ((k, v) :: rest) k =
        (rest, [⟨"unmap", k, none, some v⟩]) := by
      simp [unmapTable, mget, mdelete]
    rw [unbindEach, hstep]
    simp only [ih]
    rfl

/-- C2: `clearAll` on `N` bound roles is observably the same as issuing
`unmapTable` once per bound role in insertion order: it emits exactly `N`
`unmap` notifications, one per previously bound role, each carrying that role
and its previous concrete table, and leaves the mapping empty. -/
theorem clearAll_equiv_unbindEach (m : Mappings) :
    clearAll m = unbindEach m (m.map Prod.fst)
    ∧ (clearAll m).2.length = m.length
    ∧ (clearAll m).2 = m.map (fun p => ⟨"unmap", p.1, none, some p.2⟩)
    ∧ (clearAll m).1 = [] := by
  refine ⟨?_, by simp [clearAll], rfl, rfl⟩
  rw [unbindEach_all_keys]
  rfl

/-- C9: `mapTable` records the binding before notifying, so the single `map`
notification is delivered in a state where the role reads back as the new
table; symmetrically `unmapTable` deletes before notifying, so its `unmap`
notification is delivered in a state where the role is unbound. -/
theorem bind_updates_state_before_notify (m : Mappings) (role table t0 : String)
    (hnd : (m.map Prod.fst).Nodup) :
    ((mapTableDelivered m role table).2 =
        [(⟨"map", role, some table, mget m role⟩, mset m role table)]
      ∧ mget (mset m role table) role = some table
      ∧ (mapTableDelivered m role table).1 = mset m role table)
    ∧ (mget m role = some t0 →
        (unmapTableDelivered m role).2 =
            [(⟨"unmap", role, none, some t0⟩, mdelete m role)]
          ∧ mget (mdelete m role) role = none) := by
  constructor
  · exact ⟨rfl, mget_mset_self m role table, rfl⟩
  · intro h0
    constructor
    · simp [unmapTableDelivered, unmapTable, h0, deliveredIn]
    · exact mget_mdelete_self m role hnd

/-- C10: when several roles are bound to the same concrete table `t`,
`unmapByActualTable t` removes exactly the earliest such binding in insertion
order, emits one `unmap` notification for it, returns that role, and leaves
every other binding in place; when no role is bound to `t` it returns `none`
and changes nothing. -/
theorem unmapByActualTable_spec
    (pre mid post unrelated : Mappings) (r1 r2 t : String)
    (hpre : ∀ p ∈ pre, p.2 ≠ t)
    (hnd : ((pre ++ ((r1, t) :: (mid ++ (r2, t) :: post))).map Prod.fst).Nodup)
    (hun : ∀ p ∈ unrelated, p.2 ≠ t) :
    unmapByActualTable (pre ++ ((r1, t) :: (mid ++ (r2, t) :: post))) t =
      (pre ++ (mid ++ (r2, t) :: post), [⟨"unmap", r1, none, some t⟩], some r1)
    ∧ unmapByActualTable unrelated t = (unrelated, [], none) := by
  constructor
  · have hr1pre : ∀ p ∈ pre, p.1 ≠ r1 := by
      intro p hp heq
      rw [List.map_append, List.map_cons] at hnd
      have hdisj := List.disjoint_of_nodup_append hnd
      have hmem : r1 ∈ pre.map Prod.fst := by
        rw [← heq]
        exact List.mem_map_of_mem _ hp
      exact hdisj hmem (List.mem_cons_self _ _)
    have hpredf : ∀ p ∈ pre, ((fun q : String × String => q.2 == t) p) = false :=
      fun p hp => beq_eq_false_iff_ne.mpr (hpre p hp)
    have hfind : (pre ++ ((r1, t) :: (mid ++ (r2, t) :: post))).find?
        (fun p => p.2 == t) = some (r1, t) := by
      rw [find?_append_of_none pre ((r1, t) :: (mid ++ (r2, t) :: post))
        (fun p => p.2 == t) hpredf]
      simp [List.find?]
    have hget : mget (pre ++ ((r1, t) :: (mid ++ (r2, t) :: post))) r1 = some t := by
      rw [mget_append_of_not_key pre ((r1, t) :: (mid ++ (r2, t) :: post)) r1 hr1pre]
      simp [mget]
    have hdel : mdelete (pre ++ ((r1, t) :: (mid ++ (r2, t) :: post))) r1 =
        pre ++ (mid ++ (r2, t) :: post) := by
      rw [mdelete_append_of_not_key pre ((r1, t) :: (mid ++ (r2, t) :: post)) r1 hr1pre]
      simp [mdelete]
    simp [unmapByActualTable, hfind, unmapTable, hget, hdel]
  · have hfind : unrelated.find? (fun p => p.2 == t) = none :=
      List.find?_eq_none.mpr (fun p hp => by simp [hun p hp])
    simp [unmapByActualTable, hfind]

/-- C10 witness at concrete bindings: `rss` is bound to another table, and
`fixe` (earlier) and `acte` (later) are both bound to `dup`. -/
theorem unmapByActualTable_spec_witness :
    unmapByActualTable [("rss", "other"), ("fixe", "dup"), ("acte", "dup")] "dup" =
      ([("rss", "other"), ("acte", "dup")], [⟨"unmap", "fixe", none, some "dup"⟩],
        some "fixe")
    ∧ unmapByActualTable [("rss", "other")] "dup" = ([("rss", "other")], [], none) :=
  unmapByActualTable_spec [("rss", "other")] [] [] [("rss", "other")]
    "fixe" "acte" "dup" (by decide) (by decide) (by decide)

/-- C1: the claim fails on the code. With a connection that rejects both
drop statements, `unregisterMacro` issues the table-valued drop statement
first and the generic drop statement as fallback (and raises nothing), yet
leaves the macro id in `registeredMacros`: the id is **not** removed from the
authoritative active set in the outcome where both drop statements fail. -/
theorem unregisterMacro_both_drops_fail_keeps_id :
    unregisterMacro (fun _ => Except.error "Catalog Error") ["get_casemix"]
        "get_casemix" =
      (["get_casemix"],
        ["DROP MACRO TABLE IF EXISTS get_casemix",
          "DROP MACRO IF EXISTS get_casemix"])
    ∧ "get_casemix" ∈
        (unregisterMacro (fun _ => Except.error "Catalog Error") ["get_casemix"]
          "get_casemix").1 := by
  exact ⟨rfl, by decide⟩

/-- C6: `generateMacroInvocation` yields `SELECT * FROM id()` for a macro
with no parameters, `SELECT * FROM id(10)` when the single parameter has
declared default `10`, and a single-brace editable token `{name}` — distinct
from the double-brace table-placeholder syntax `{{name}}` — when the single
parameter has no default. -/
theorem generateMacroInvocation_spec (mac : Macro) (n : String) :
    (mac.parameters = [] →
      generateMacroInvocation mac = "SELECT * FROM " ++ mac.id ++ "()")
    ∧ (mac.parameters = [⟨n, some "10"⟩] →
      generateMacroInvocation mac = "SELECT * FROM " ++ mac.id ++ "(10)")
    ∧ (mac.parameters = [⟨n, none⟩] →
      generateMacroInvocation mac =
          "SELECT * FROM " ++ mac.id ++ "(\x7b" ++ n ++ "\x7d)"
        ∧ ("\x7b" ++ n ++ "\x7d") ≠ ("\x7b\x7b" ++ n ++ "\x7d\x7d")) := by
  refine ⟨?_, ?_, ?_⟩
  · intro h
    simp [generateMacroInvocation, h]
  · intro h
    simp only [generateMacroInvocation, h]
    apply strExt
    simp only [strData, List.append_assoc]
    norm_num [joinComma, List.asString]
  · intro h
    constructor
    · simp only [generateMacroInvocation, h]
      apply strExt
      simp only [strData, List.append_assoc]
      norm_num [joinComma, List.asString]
      decide
    · intro hcontra
      have hdata := congrArg String.data hcontra
      simp only [strData] at hdata
      have hlen := congrArg List.length hdata
      simp only [List.length_append] at hlen
      have e1 : "\x7b".data.length = 1 := rfl
      have e2 : "\x7d".data.length = 1 := rfl
      have e3 : "\x7b\x7b".data.length = 2 := rfl
      have e4 : "\x7d\x7d".data.length = 2 := rfl
      rw [e1, e2, e3, e4] at hlen
      omega

/-- C7: the claim fails on the code. With the registry catalog, no macro
registered and role `fixe` bound, `get_casemix` is inactive and all of its
dependency roles are bound, so the claim demands the pair
`(casemixMacro, [])` in the result — but `getPendingMacros` filters out every
entry whose missing-role list is empty and returns nothing. -/
theorem getPendingMacros_omits_satisfied_inactive :
    casemixMacro.id ∉ ([] : List String)
    ∧ casemixMacro.depends_on.filter (fun dep => !(dep ∈ ["fixe"])) = []
    ∧ getPendingMacros registryMacros [] ["fixe"] = []
    ∧ (casemixMacro, ([] : List String)) ∉ getPendingMacros registryMacros [] ["fixe"] := by
  refine ⟨by decide, by decide, by decide, by decide⟩

/-- C7 (amended): `getPendingMacros` returns exactly the catalog macros that
are not in the active set **and** still have at least one unbound dependency
role, each paired with the list of its unbound dependency roles; an inactive
macro whose dependencies are all bound is omitted. -/
theorem getPendingMacros_mem (cat : Catalog) (registered mappedTables : List String)
    (mac : Macro) (miss : List String) :
    (mac, miss) ∈ getPendingMacros cat registered mappedTables ↔
      mac ∈ cat ∧ mac.id ∉ registered
        ∧ miss = mac.depends_on.filter (fun dep => !(dep ∈ mappedTables))
        ∧ miss ≠ [] := by
  constructor
  · intro h
    simp only [getPendingMacros] at h
    rw [List.mem_filter] at h
    obtain ⟨hmem, hne⟩ := h
    rw [List.mem_map] at hmem
    obtain ⟨a, hain, heq⟩ := hmem
    rw [List.mem_filter] at hain
    obtain ⟨hacat, hareg⟩ := hain
    have ha1 : a = mac := congrArg Prod.fst heq
    have ha2 : a.depends_on.filter (fun dep => !(dep ∈ mappedTables)) = miss :=
      congrArg Prod.snd heq
    subst ha1
    refine ⟨hacat, by simpa using hareg, ha2.symm, ?_⟩
    intro hmiss
    rw [hmiss] at hne
    simp at hne
  · rintro ⟨hacat, hreg, hmiss, hne⟩
    simp only [getPendingMacros]
    rw [List.mem_filter]
    refine ⟨?_, by simpa using hne⟩
    rw [List.mem_map]
    refine ⟨mac, ?_, ?_⟩
    · rw [List.mem_filter]
      exact ⟨hacat, by simpa using hreg⟩
    · rw [hmiss]

/-- C6 witness: the three invocation shapes at concrete macros. -/
theorem generateMacroInvocation_spec_witness :
    generateMacroInvocation casemixMacro = "SELECT * FROM " ++ casemixMacro.id ++ "()"
    ∧ generateMacroInvocation topDefaultMacro =
        "SELECT * FROM " ++ topDefaultMacro.id ++ "(10)"
    ∧ (generateMacroInvocation topNoDefaultMacro =
          "SELECT * FROM " ++ topNoDefaultMacro.id ++ "(\x7b" ++ "top_n" ++ "\x7d)"
        ∧ ("\x7b" ++ "top_n" ++ "\x7d") ≠ ("\x7b\x7b" ++ "top_n" ++ "\x7d\x7d")) :=
  ⟨(generateMacroInvocation_spec casemixMacro "top_n").1 rfl,
    (generateMacroInvocation_spec topDefaultMacro "top_n").2.1 rfl,
    (generateMacroInvocation_spec topNoDefaultMacro "top_n").2.2 rfl⟩

/-- C9 witness: binding `fixe` over an existing binding, then unbinding it. -/
theorem bind_updates_state_before_notify_witness :
    (((mapTableDelivered [("fixe", "old_table")] "fixe" "new_table").2 =
        [(⟨"map", "fixe", some "new_table", mget [("fixe", "old_table")] "fixe"⟩,
          mset [("fixe", "old_table")] "fixe" "new_table")]
      ∧ mget (mset [("fixe", "old_table")] "fixe" "new_table") "fixe" =
          some "new_table"
      ∧ (mapTableDelivered [("fixe", "old_table")] "fixe" "new_table").1 =
          mset [("fixe", "old_table")] "fixe" "new_table"))
    ∧ ((unmapTableDelivered [("fixe", "old_table")] "fixe").2 =
          [(⟨"unmap", "fixe", none, some "old_table"⟩,
            mdelete [("fixe", "old_table")] "fixe")]
        ∧ mget (mdelete [("fixe", "old_table")] "fixe") "fixe" = none) := by
  have h := bind_updates_state_before_notify [("fixe", "old_table")] "fixe"
    "new_table" "old_table" (by decide)
  exact ⟨h.1, h.2 (by decide)⟩

/-- C4: the claim fails on the code. The role `fixe` is **bound** (the
binding table holds an entry for it) to the empty string, so the claim
demands that `registerMacro` execute the generated SQL; but the JS dependency
check `!mappings[dep]` treats the empty string as falsy, so the code issues
no statement and reports failure. -/
theorem registerMacro_bound_empty_counterexample :
    mget [("fixe", "")] "fixe" = some ""
    ∧ registerMacro registryMacros (fun _ => Except.ok ()) [] [("fixe", "")]
        "get_casemix" = ([], [], false) := ⟨rfl, rfl⟩

/-- C4 (amended): for a known macro, `registerMacro` returns "not activated"
with no engine statement when some dependency role is unbound **or bound to a
JS-falsy (empty) table name**; when every dependency is bound to a truthy
name it executes exactly the generated definition SQL and adds the id to the
active set exactly when the engine accepts it; an engine rejection yields a
`false` result (the thrown error is caught), never an exception. -/
theorem registerMacro_spec (cat : Catalog) (conn : Conn) (registered : List String)
    (mappings : Mappings) (macroId : String) (mac : Macro) (e : String)
    (hfound : macroById cat macroId = some mac) :
    ((∃ dep ∈ mac.depends_on, truthy (mget mappings dep) = false) →
      registerMacro cat conn registered mappings macroId = (registered, [], false))
    ∧ ((∀ dep ∈ mac.depends_on, truthy (mget mappings dep) = true) →
        (conn (generateMacroSQL mac mappings) = Except.ok () →
          registerMacro cat conn registered mappings macroId =
            (sadd registered macroId, [generateMacroSQL mac mappings], true))
        ∧ (conn (generateMacroSQL mac mappings) = Except.error e →
          registerMacro cat conn registered mappings macroId =
            (registered, [generateMacroSQL mac mappings], false))) := by
  constructor
  · rintro ⟨dep, hdep, hfalse⟩
    have hneg : ¬(mac.depends_on.all (fun d => truthy (mget mappings d)) = true) := by
      intro hall
      rw [List.all_eq_true] at hall
      have hd := hall dep hdep
      rw [hfalse] at hd
      exact Bool.false_ne_true hd
    simp only [registerMacro, hfound, if_neg hneg]
  · intro hall
    have hcond : mac.depends_on.all (fun d => truthy (mget mappings d)) = true :=
      List.all_eq_true.mpr hall
    constructor
    · intro hok
      simp only [registerMacro, hfound, if_pos hcond]
      rw [hok]
    · intro herr
      simp only [registerMacro, hfound, if_pos hcond]
      rw [herr]

/-- C4 witness: the casemix macro with its dependency bound to a real table
name, against an accepting and a rejecting engine, and with no binding. -/
theorem registerMacro_spec_witness :
    registerMacro registryMacros (fun _ => Except.ok ()) []
        [("fixe", "pmsi_fixe_2024")] "get_casemix" =
      (sadd [] "get_casemix",
        [generateMacroSQL casemixMacro [("fixe", "pmsi_fixe_2024")]], true)
    ∧ registerMacro registryMacros (fun _ => Except.error "Parser Error") []
        [("fixe", "pmsi_fixe_2024")] "get_casemix" =
      ([], [generateMacroSQL casemixMacro [("fixe", "pmsi_fixe_2024")]], false)
    ∧ registerMacro registryMacros (fun _ => Except.ok ()) [] [] "get_casemix" =
      ([], [], false) := by
  have h1 := registerMacro_spec registryMacros (fun _ => Except.ok ()) []
    [("fixe", "pmsi_fixe_2024")] "get_casemix" casemixMacro "Parser Error" (by decide)
  have h2 := registerMacro_spec registryMacros (fun _ => Except.error "Parser Error")
    [] [("fixe", "pmsi_fixe_2024")] "get_casemix" casemixMacro "Parser Error" (by decide)
  have h3 := registerMacro_spec registryMacros (fun _ => Except.ok ()) [] []
    "get_casemix" casemixMacro "Parser Error" (by decide)
  exact ⟨(h1.2 (by decide)).1 rfl, (h2.2 (by decide)).2 rfl,
    h3.1 ⟨"fixe", by decide, by decide⟩⟩

theorem find?_beq_self_of_mem (x : String) (l : List String) (h : x ∈ l) :
    l.find? (fun q => x == q) = some x := by
  induction l with
  | nil => cases h
  | cons a t ih =>
    by_cases hx : x = a
    · subst hx
      simp [List.find?]
    · have hfalse : (x == a) = false := beq_eq_false_iff_ne.mpr hx
      simp only [List.find?, hfalse]
      exact ih (List.mem_of_ne_of_mem hx h)

/-- C3: `autoMap` binds a role equal (case-insensitively) to the candidate
even over an existing binding; a role matching only by substring containment
is bound only when not already bound, and such a bind changes no other role;
when no role is bound the result is `none`, no notification is emitted, and
no binding changes. -/
theorem autoMap_spec (roleNames : List String) (m : Mappings) (up ph r : String) :
    (jsToLower up ∈ roleNames →
      autoMap roleNames m up =
        (mset m (jsToLower up) up,
          [⟨"map", jsToLower up, some up, mget m (jsToLower up)⟩],
          some (jsToLower up)))
    ∧ (jsToLower up ∉ roleNames → (autoMap roleNames m up).2.2 = some ph →
        mget m ph = none
        ∧ (includesStr (jsToLower up) ph || includesStr ph (jsToLower up)) = true
        ∧ ph ∈ roleNames
        ∧ (autoMap roleNames m up).1 = mset m ph up
        ∧ (r ≠ ph → mget (autoMap roleNames m up).1 r = mget m r))
    ∧ ((autoMap roleNames m up).2.2 = none →
        (autoMap roleNames m up).1 = m ∧ (autoMap roleNames m up).2.1 = []) := by
  refine ⟨?_, ?_, ?_⟩
  · intro hA
    have hfind := find?_beq_self_of_mem (jsToLower up) roleNames hA
    simp only [autoMap, hfind]
    rfl
  · intro hB hsome
    have hfind1 : roleNames.find? (fun q => jsToLower up == q) = none := by
      rw [List.find?_eq_none]
      intro q hq
      simp only [beq_iff_eq]
      intro heq
      exact hB (heq ▸ hq)
    cases hfind2 : roleNames.find? (fun q =>
        (includesStr (jsToLower up) q || includesStr q (jsToLower up))
          && !(mget m q).isSome) with
    | none =>
      simp only [autoMap, hfind1, hfind2] at hsome
      exact absurd hsome (by simp)
    | some q =>
      have hpred := List.find?_some hfind2
      have hqmem := List.mem_of_find?_eq_some hfind2
      simp only [Bool.and_eq_true] at hpred
      obtain ⟨hinc, hnmap⟩ := hpred
      have hget : mget m q = none := by
        cases hval : mget m q with
        | none => rfl
        | some v =>
          rw [hval] at hnmap
          simp at hnmap
      have hq_ph : q = ph := by
        simp only [autoMap, hfind1, hfind2] at hsome
        exact Option.some.inj hsome
      subst hq_ph
      refine ⟨hget, hinc, hqmem, ?_, ?_⟩
      · simp only [autoMap, hfind1, hfind2]
        rfl
      · intro hr
        simp only [autoMap, hfind1, hfind2]
        exact mget_mset_ne m q up r hr
  · intro hnone
    cases hfind1 : roleNames.find? (fun q => jsToLower up == q) with
    | some q =>
      simp only [autoMap, hfind1] at hnone
      exact absurd hnone (by simp)
    | none =>
      cases hfind2 : roleNames.find? (fun q =>
          (includesStr (jsToLower up) q || includesStr q (jsToLower up))
            && !(mget m q).isSome) with
      | some q =>
        simp only [autoMap, hfind1, hfind2] at hnone
        exact absurd hnone (by simp)
      | none =>
        have hval : autoMap roleNames m up = (m, [], none) := by
          simp only [autoMap, hfind1, hfind2]
        rw [hval]
        exact ⟨rfl, rfl⟩

/-- C3 witness: `FIXE` exactly matches role `fixe` and overwrites its
existing binding; `fixe_2024` substring-binds the unbound role `fixe`
leaving `rss` untouched; `random_table` binds nothing and changes nothing. -/
theorem autoMap_spec_witness :
    autoMap tablesKeys [("fixe", "existing_table")] "FIXE" =
      (mset [("fixe", "existing_table")] "fixe" "FIXE",
        [⟨"map", "fixe", some "FIXE", mget [("fixe", "existing_table")] "fixe"⟩],
        some "fixe")
    ∧ (mget ([] : Mappings) "fixe" = none
        ∧ (includesStr (jsToLower "fixe_2024") "fixe"
            || includesStr "fixe" (jsToLower "fixe_2024")) = true
        ∧ "fixe" ∈ tablesKeys
        ∧ (autoMap tablesKeys [] "fixe_2024").1 = mset [] "fixe" "fixe_2024"
        ∧ ("rss" ≠ "fixe" →
            mget (autoMap tablesKeys [] "fixe_2024").1 "rss" = mget [] "rss"))
    ∧ ((autoMap tablesKeys [] "random_table").1 = []
        ∧ (autoMap tablesKeys [] "random_table").2.1 = []) := by
  have h1 := autoMap_spec tablesKeys [("fixe", "existing_table")] "FIXE" "fixe" "rss"
  have h2 := autoMap_spec tablesKeys [] "fixe_2024" "fixe" "rss"
  have h3 := autoMap_spec tablesKeys [] "random_table" "fixe" "rss"
  exact ⟨h1.1 (by decide), h2.2.1 (by decide) (by decide), h3.2.2 (by decide)⟩

theorem hasSub_iff (p s : List Char) :
    hasSub p s = true ↔ ∃ pre post : List Char, s = pre ++ p ++ post := by
  induction s with
  | nil =>
    constructor
    · intro h
      have hp : p = [] := by simpa [hasSub, List.isEmpty_iff] using h
      exact ⟨[], [], by simp [hp]⟩
    · rintro ⟨pre, post, heq⟩
      have := heq.symm
      simp only [List.append_eq_nil, List.append_assoc] at this
      simp [hasSub, this.2.1]
  | cons c rest ih =>
    simp only [hasSub, Bool.or_eq_true]
    constructor
    · rintro (hpre | hsub)
      · have hp : p <+: c :: rest := by rwa [← List.isPrefixOf_iff_prefix]
        obtain ⟨tail, ht⟩ := hp
        exact ⟨[], tail, by simp [← ht]⟩
      · obtain ⟨pre, post, heq⟩ := ih.mp hsub
        exact ⟨c :: pre, post, by simp [heq]⟩
    · rintro ⟨pre, post, heq⟩
      cases pre with
      | nil =>
        left
        simp only [List.nil_append] at heq
        rw [List.isPrefixOf_iff_prefix]
        exact ⟨post, heq.symm⟩
      | cons d pre2 =>
        right
        simp only [List.cons_append, List.cons.injEq] at heq
        exact ih.mpr ⟨pre2, post, heq.2⟩

theorem searchHit_iff_ciMatch (q : String) (t : Template) :
    searchHit (jsToLower q) t = true ↔ ciMatch q t := by
  simp only [searchHit, Bool.or_eq_true, includesStr, hasSub_iff, ciMatch,
    ciSubstringOf, or_assoc]

/-- C8: the claim fails as stated. The query of two spaces is a non-empty
string, and it is not a case-insensitive substring of the casemix template's
title, description, category, or identifier — so the claim demands an empty
result — yet `searchTemplates` treats a whitespace-only query as empty
(`query.trim() === ''`) and returns the unfiltered base set. -/
theorem searchTemplates_blank_query_counterexample :
    "  " ≠ ""
    ∧ searchTemplates registryMacros (some "  ") ["fixe"] false =
        [toPaletteTemplate casemixMacro]
    ∧ ¬ ciMatch "  " (toPaletteTemplate casemixMacro) := by
  refine ⟨by decide, rfl, ?_⟩
  rw [← searchHit_iff_ciMatch]
  decide

/-- C8 (amended): for every query that is non-empty **after trimming
whitespace**, `searchTemplates` returns exactly the members of the base set
(status set when `includeUnavailable`, palette set otherwise) for which the
query is a case-insensitive substring of title, description, category, or
identifier; an empty, whitespace-only, or absent query returns the
unfiltered base set. -/
theorem searchTemplates_spec (cat : Catalog) (q blank : String)
    (mappedTables : List String) (includeUnavailable : Bool) (t : Template)
    (hq : trimChars q.toList ≠ [])
    (hblank : trimChars blank.toList = []) :
    (t ∈ searchTemplates cat (some q) mappedTables includeUnavailable ↔
      t ∈ searchBase cat mappedTables includeUnavailable ∧ ciMatch q t)
    ∧ searchTemplates cat (some blank) mappedTables includeUnavailable =
        searchBase cat mappedTables includeUnavailable
    ∧ searchTemplates cat none mappedTables includeUnavailable =
        searchBase cat mappedTables includeUnavailable := by
  refine ⟨?_, ?_, rfl⟩
  · have hcond : ¬(q = "" ∨ trimChars q.toList = []) := by
      rintro (rfl | h)
      · exact hq rfl
      · exact hq h
    simp only [searchTemplates, if_neg hcond]
    rw [List.mem_filter]
    exact and_congr_right (fun _ => searchHit_iff_ciMatch q t)
  · simp only [searchTemplates, if_pos (Or.inr hblank)]

/-- C8 witness: query `casemix` filters by the case-insensitive-substring
predicate, and the whitespace-only and absent queries return the base set. -/
theorem searchTemplates_spec_witness :
    ((toPaletteTemplate casemixMacro) ∈
        searchTemplates registryMacros (some "casemix") ["fixe"] false ↔
      (toPaletteTemplate casemixMacro) ∈ searchBase registryMacros ["fixe"] false
        ∧ ciMatch "casemix" (toPaletteTemplate casemixMacro))
    ∧ searchTemplates registryMacros (some "  ") ["fixe"] false =
        searchBase registryMacros ["fixe"] false
    ∧ searchTemplates registryMacros none ["fixe"] false =
        searchBase registryMacros ["fixe"] false :=
  searchTemplates_spec registryMacros "casemix" "  " ["fixe"] false
    (toPaletteTemplate casemixMacro) (by decide) (by decide)

/-! ### Placeholder substitution, segment by segment -/

theorem braceFree_cons (c : Char) (s : List Char) :
    braceFree (c :: s) = true ↔ (c ≠ lb ∧ c ≠ rb ∧ braceFree s = true) := by
  simp [braceFree, List.all_cons, and_assoc]

theorem wordish_char_not_brace (c : Char) (h : (c.isAlphanum || c == '_') = true) :
    c ≠ lb ∧ c ≠ rb := by
  constructor
  · intro h1
    rw [h1] at h
    exact absurd h (by decide)
  · intro h2
    rw [h2] at h
    exact absurd h (by decide)

theorem wordish_braceFree (s : List Char) (h : wordish s = true) :
    braceFree s = true := by
  simp only [wordish, Bool.and_eq_true, List.all_eq_true] at h
  simp only [braceFree, List.all_eq_true]
  intro c hc
  have hnb := wordish_char_not_brace c (h.2 c hc)
  simp [hnb.1, hnb.2]

theorem wordish_ne_nil (s : List Char) (h : wordish s = true) : s ≠ [] := by
  simp only [wordish, Bool.and_eq_true] at h
  intro hnil
  rw [hnil] at h
  simp at h

theorem replaceAll_skip_char (n v : List Char) (c : Char) (s : List Char)
    (hc : c ≠ lb) :
    replaceAll (phPattern n) v (c :: s) = c :: replaceAll (phPattern n) v s := by
  apply replaceAll_cons_neg
  intro hcon
  have hpre := hcon.2
  simp only [phPattern, List.isPrefixOf] at hpre
  rw [beq_eq_false_iff_ne.mpr (Ne.symm hc)] at hpre
  simp at hpre

theorem replaceAll_skip_braceFree (n v l y : List Char) (hl : braceFree l = true) :
    replaceAll (phPattern n) v (l ++ y) = l ++ replaceAll (phPattern n) v y := by
  induction l with
  | nil => rfl
  | cons c l2 ih =>
    obtain ⟨hc, _, hl2⟩ := (braceFree_cons c l2).mp hl
    show replaceAll (phPattern n) v (c :: (l2 ++ y)) = _
    rw [replaceAll_skip_char n v c (l2 ++ y) hc, ih hl2]
    rfl

theorem replaceAll_at_match (p v y : List Char) (hp : p ≠ []) :
    replaceAll p v (p ++ y) = v ++ replaceAll p v y := by
  cases p with
  | nil => exact absurd rfl hp
  | cons c t =>
    have hpre : (c :: t).isPrefixOf (c :: (t ++ y)) = true := by
      rw [List.isPrefixOf_iff_prefix]
      exact ⟨y, rfl⟩
    rw [show (c :: t) ++ y = c :: (t ++ y) from rfl]
    rw [replaceAll_cons_pos (c :: t) v c (t ++ y) hp hpre]
    congr 1
    simp only [List.length_cons, List.drop_succ_cons, List.drop_left]

theorem phTail_not_prefix (m n y : List Char) (hm : braceFree m = true)
    (hn : braceFree n = true) (hne : m ≠ n) :
    (n ++ [rb, rb]).isPrefixOf (m ++ rb :: rb :: y) = false := by
  induction n generalizing m with
  | nil =>
    cases m with
    | nil => exact absurd rfl hne
    | cons c m2 =>
      obtain ⟨_, hc, _⟩ := (braceFree_cons c m2).mp hm
      simp only [List.nil_append, List.cons_append, List.isPrefixOf]
      rw [beq_eq_false_iff_ne.mpr (Ne.symm hc)]
      simp
  | cons a n2 ih =>
    cases m with
    | nil =>
      obtain ⟨_, ha, _⟩ := (braceFree_cons a n2).mp hn
      simp only [List.cons_append, List.nil_append, List.isPrefixOf]
      rw [beq_eq_false_iff_ne.mpr ha]
      simp
    | cons b m2 =>
      obtain ⟨_, _, hm2⟩ := (braceFree_cons b m2).mp hm
      obtain ⟨_, _, hn2⟩ := (braceFree_cons a n2).mp hn
      simp only [List.cons_append, List.isPrefixOf]
      by_cases hab : a = b
      · subst hab
        simp only [beq_self_eq_true, Bool.true_and]
        exact ih m2 hm2 hn2 (fun h => hne (by rw [h]))
      · rw [beq_eq_false_iff_ne.mpr hab]
        simp

theorem replaceAll_ph_mismatch (n v m y : List Char)
    (hn : wordish n = true) (hm : wordish m = true) (hne : m ≠ n) :
    replaceAll (phPattern n) v (phPattern m ++ y) =
      phPattern m ++ replaceAll (phPattern n) v y := by
  have hmb := wordish_braceFree m hm
  have hnb := wordish_braceFree n hn
  have hmne := wordish_ne_nil m hm
  have hexp : phPattern m ++ y = lb :: lb :: (m ++ rb :: rb :: y) := by
    simp [phPattern, List.append_assoc]
  rw [hexp]
  have h0 : (phPattern n).isPrefixOf (lb :: lb :: (m ++ rb :: rb :: y)) = false := by
    simp only [phPattern, List.isPrefixOf, beq_self_eq_true, Bool.true_and]
    exact phTail_not_prefix m n y hmb hnb hne
  rw [replaceAll_cons_neg _ _ _ _ (by simp [h0])]
  have h1 : (phPattern n).isPrefixOf (lb :: (m ++ rb :: rb :: y)) = false := by
    cases m with
    | nil => exact absurd rfl hmne
    | cons c m2 =>
      obtain ⟨hc, _, _⟩ := (braceFree_cons c m2).mp hmb
      simp only [phPattern, List.cons_append, List.isPrefixOf, beq_self_eq_true,
        Bool.true_and]
      rw [beq_eq_false_iff_ne.mpr (Ne.symm hc)]
      simp
  rw [replaceAll_cons_neg _ _ _ _ (by simp [h1])]
  rw [replaceAll_skip_braceFree n v m (rb :: rb :: y) hmb]
  rw [replaceAll_skip_char n v rb _ (by decide),
    replaceAll_skip_char n v rb _ (by decide)]
  simp [phPattern, List.append_assoc]

theorem replaceAll_render (n v : List Char) (segs : List Seg)
    (hw : wfSegs segs = true) (hn : wordish n = true) :
    replaceAll (phPattern n) v (render segs) = render (substPh n v segs) := by
  induction segs with
  | nil => rfl
  | cons s rest ih =>
    have hws : wfSeg s = true ∧ wfSegs rest = true := by
      simpa [wfSegs, List.all_cons, Bool.and_eq_true] using hw
    cases s with
    | lit l =>
      show replaceAll (phPattern n) v (l ++ render rest) = _
      rw [replaceAll_skip_braceFree n v l (render rest) hws.1, ih hws.2]
      rfl
    | ph m =>
      by_cases hmn : m = n
      · subst hmn
        show replaceAll (phPattern m) v (phPattern m ++ render rest) = _
        rw [replaceAll_at_match (phPattern m) v (render rest) (by simp [phPattern])]
        rw [ih hws.2]
        simp [substPh, render]
      · show replaceAll (phPattern n) v (phPattern m ++ render rest) = _
        rw [replaceAll_ph_mismatch n v m (render rest) hn hws.1 hmn, ih hws.2]
        simp [substPh, render, hmn]

theorem wfSegs_substPh (n v : List Char) (segs : List Seg)
    (hw : wfSegs segs = true) (hv : braceFree v = true) :
    wfSegs (substPh n v segs) = true := by
  simp only [wfSegs, substPh, List.all_map, List.all_eq_true] at hw ⊢
  intro s hs
  have hws := hw s hs
  cases s with
  | lit l => exact hws
  | ph m =>
    by_cases hmn : m = n
    · simp only [Function.comp_apply, hmn, if_pos rfl]
      exact hv
    · simp only [Function.comp_apply, if_neg hmn]
      exact hws

theorem foldl_tables_render (ms : Mappings) (segs : List Seg)
    (hw : wfSegs segs = true)
    (hms : ∀ p ∈ ms, wordish p.1.toList = true ∧ braceFree p.2.toList = true) :
    ms.foldl (fun sql p => replaceAll (phPattern p.1.toList) p.2.toList sql)
        (render segs)
      = render (substFoldTables ms segs) := by
  induction ms generalizing segs with
  | nil => rfl
  | cons kv ms2 ih =>
    have hkv := hms kv (List.mem_cons_self _ _)
    show List.foldl _ (replaceAll (phPattern kv.1.toList) kv.2.toList (render segs)) ms2 = _
    rw [replaceAll_render kv.1.toList kv.2.toList segs hw hkv.1]
    rw [ih (substPh kv.1.toList kv.2.toList segs)
      (wfSegs_substPh _ _ segs hw hkv.2)
      (fun p hp => hms p (List.mem_cons_of_mem _ hp))]
    rfl

theorem foldl_params_render (params : List Param) (segs : List Seg)
    (hw : wfSegs segs = true)
    (hp : ∀ p ∈ params, wordish p.name.toList = true) :
    params.foldl (fun sql p => replaceAll (phPattern p.name.toList) p.name.toList sql)
        (render segs)
      = render (substFoldParams params segs) := by
  induction params generalizing segs with
  | nil => rfl
  | cons q qs ih =>
    have hq := hp q (List.mem_cons_self _ _)
    show List.foldl _ (replaceAll (phPattern q.name.toList) q.name.toList (render segs)) qs = _
    rw [replaceAll_render q.name.toList q.name.toList segs hw hq]
    rw [ih (substPh q.name.toList q.name.toList segs)
      (wfSegs_substPh _ _ segs hw (wordish_braceFree _ hq))
      (fun p hpm => hp p (List.mem_cons_of_mem _ hpm))]
    rfl

theorem resolveTable_nil (s : Seg) : resolveTable [] s = s := by
  cases s <;> rfl

theorem substFoldTables_eq_map (ms : Mappings) (segs : List Seg) :
    substFoldTables ms segs = segs.map (resolveTable ms) := by
  induction ms generalizing segs with
  | nil =>
    show segs = segs.map (resolveTable [])
    rw [show resolveTable [] = id from funext resolveTable_nil, List.map_id]
  | cons kv ms2 ih =>
    show substFoldTables ms2 (substPh kv.1.toList kv.2.toList segs) = _
    rw [ih]
    have hfun : (resolveTable ms2) ∘
        (fun s => match s with
          | Seg.ph m => if m = kv.1.toList then Seg.lit kv.2.toList else Seg.ph m
          | Seg.lit l => Seg.lit l) = resolveTable (kv :: ms2) := by
      funext s
      cases s with
      | lit l => rfl
      | ph m =>
        by_cases hmk : m = kv.1.toList
        · simp only [Function.comp_apply, if_pos hmk, resolveTable, List.find?]
          rw [show (kv.1.toList == m) = true from beq_iff_eq.mpr hmk.symm]
        · simp only [Function.comp_apply, if_neg hmk, resolveTable, List.find?]
          rw [show (kv.1.toList == m) = false from
            beq_eq_false_iff_ne.mpr (fun h => hmk h.symm)]
    rw [show substPh kv.1.toList kv.2.toList segs =
      segs.map (fun s => match s with
        | Seg.ph m => if m = kv.1.toList then Seg.lit kv.2.toList else Seg.ph m
        | Seg.lit l => Seg.lit l) from rfl]
    rw [List.map_map, hfun]

theorem resolveParam_nil (s : Seg) : resolveParam [] s = s := by
  cases s <;> rfl

theorem substFoldParams_eq_map (params : List Param) (segs : List Seg) :
    substFoldParams params segs = segs.map (resolveParam params) := by
  induction params generalizing segs with
  | nil =>
    show segs = segs.map (resolveParam [])
    rw [show resolveParam [] = id from funext resolveParam_nil, List.map_id]
  | cons q qs ih =>
    show substFoldParams qs (substPh q.name.toList q.name.toList segs) = _
    rw [ih]
    have hfun : (resolveParam qs) ∘
        (fun s => match s with
          | Seg.ph m => if m = q.name.toList then Seg.lit q.name.toList else Seg.ph m
          | Seg.lit l => Seg.lit l) = resolveParam (q :: qs) := by
      funext s
      cases s with
      | lit l => rfl
      | ph m =>
        by_cases hmk : m = q.name.toList
        · subst hmk
          simp [resolveParam, List.any_cons]
        · have hbeq : (q.name.toList == m) = false :=
            beq_eq_false_iff_ne.mpr (fun h => hmk h.symm)
          simp only [Function.comp_apply, if_neg hmk, resolveParam, List.any_cons]
          have hd : ¬q.name.data = m := fun h => hmk (Eq.symm h)
          simp [hbeq, hd]
    rw [show substPh q.name.toList q.name.toList segs =
      segs.map (fun s => match s with
        | Seg.ph m => if m = q.name.toList then Seg.lit q.name.toList else Seg.ph m
        | Seg.lit l => Seg.lit l) from rfl]
    rw [List.map_map, hfun]

theorem resolveParam_resolveTable (ms : Mappings) (params : List Param) (s : Seg) :
    resolveParam params (resolveTable ms s) = resolveSeg ms params s := by
  cases s with
  | lit l => rfl
  | ph m =>
    simp only [resolveTable, resolveSeg]
    cases ms.find? (fun p => p.1.toList == m) with
    | some p => rfl
    | none => rfl

theorem wfSegs_substFoldTables (ms : Mappings) (segs : List Seg)
    (hw : wfSegs segs = true)
    (hvals : ∀ p ∈ ms, braceFree p.2.toList = true) :
    wfSegs (substFoldTables ms segs) = true := by
  induction ms generalizing segs with
  | nil => exact hw
  | cons kv ms2 ih =>
    show wfSegs (substFoldTables ms2 (substPh kv.1.toList kv.2.toList segs)) = true
    exact ih (substPh kv.1.toList kv.2.toList segs)
      (wfSegs_substPh _ _ segs hw (hvals kv (List.mem_cons_self _ _)))
      (fun p hp => hvals p (List.mem_cons_of_mem _ hp))

theorem hasSub_lb_eq_false (t s : List Char) (h : braceFree s = true) :
    hasSub (lb :: t) s = false := by
  induction s with
  | nil => rfl
  | cons c rest ih =>
    obtain ⟨hc, _, hrest⟩ := (braceFree_cons c rest).mp h
    simp only [hasSub, List.isPrefixOf]
    rw [beq_eq_false_iff_ne.mpr (Ne.symm hc)]
    simp only [Bool.false_and, Bool.false_or]
    exact ih hrest

theorem joinComma_braceFree (l : List (List Char))
    (h : ∀ x ∈ l, braceFree x = true) : braceFree (joinComma l) = true := by
  induction l with
  | nil => rfl
  | cons x xs ih =>
    cases xs with
    | nil => exact h x (List.mem_cons_self _ _)
    | cons y ys =>
      show braceFree (x ++ ',' :: ' ' :: joinComma (y :: ys)) = true
      have h1 := h x (List.mem_cons_self _ _)
      have h2 := ih (fun z hz => h z (List.mem_cons_of_mem _ hz))
      simp only [braceFree, List.all_append, List.all_cons, Bool.and_eq_true] at h1 h2 ⊢
      exact ⟨h1, by decide, by decide, h2⟩

theorem find?_toList_eq_mget (ms : Mappings) (k : String) :
    ms.find? (fun p => p.1.toList == k.toList) = (mget ms k).map (fun v => (k, v)) := by
  induction ms with
  | nil => rfl
  | cons kv rest ih =>
    obtain ⟨k2, v2⟩ := kv
    by_cases hk : k2 = k
    · subst hk
      simp [List.find?, mget]
    · have hbeq : (k2.toList == k.toList) = false := by
        rw [beq_eq_false_iff_ne]
        intro h
        exact hk (strExt h)
      simp only [List.find?, hbeq, mget, if_neg hk]
      exact ih

theorem braceFree_render_resolved (ms : Mappings) (params : List Param)
    (segs : List Seg) (hw : wfSegs segs = true)
    (hvals : ∀ p ∈ ms, braceFree p.2.toList = true)
    (hcover : ∀ n, Seg.ph n ∈ segs →
      (ms.find? (fun p => p.1.toList == n)).isSome = true
        ∨ params.any (fun q => q.name.toList == n) = true) :
    braceFree (render (segs.map (resolveSeg ms params))) = true := by
  induction segs with
  | nil => rfl
  | cons s rest ih =>
    have hws : wfSeg s = true ∧ wfSegs rest = true := by
      simpa [wfSegs, List.all_cons, Bool.and_eq_true] using hw
    have hrest := ih hws.2 (fun n hn => hcover n (List.mem_cons_of_mem _ hn))
    cases s with
    | lit l =>
      show braceFree (l ++ render (rest.map (resolveSeg ms params))) = true
      simp only [braceFree, List.all_append, Bool.and_eq_true]
      exact ⟨hws.1, hrest⟩
    | ph m =>
      have hc := hcover m (List.mem_cons_self _ _)
      cases hfe : ms.find? (fun p => p.1.toList == m) with
      | some p =>
        have hpv := hvals p (List.mem_of_find?_eq_some hfe)
        show braceFree (render (resolveSeg ms params (Seg.ph m)
          :: rest.map (resolveSeg ms params))) = true
        simp only [resolveSeg, hfe]
        show braceFree (p.2.toList ++ render (rest.map (resolveSeg ms params))) = true
        simp only [braceFree, List.all_append, Bool.and_eq_true]
        exact ⟨hpv, hrest⟩
      | none =>
        have hany : params.any (fun q => q.name.toList == m) = true := by
          rcases hc with hfind | hany
          · rw [hfe] at hfind
            simp at hfind
          · exact hany
        show braceFree (render (resolveSeg ms params (Seg.ph m)
          :: rest.map (resolveSeg ms params))) = true
        simp only [resolveSeg, hfe, hany, if_pos]
        show braceFree (m ++ render (rest.map (resolveSeg ms params))) = true
        simp only [braceFree, List.all_append, Bool.and_eq_true]
        exact ⟨by simpa [braceFree] using wordish_braceFree m hws.1, hrest⟩

/-- C5: for a macro whose stripped body decomposes into well-formed literal
text and placeholder segments, each placeholder naming a bound dependency
role or a formal parameter, `generateMacroSQL` removes the comment-only
lines, replaces every occurrence of each table placeholder with its bound
concrete table name and each parameter placeholder with the parameter's own
name — leaving no table-placeholder syntax (`{{`) anywhere in the output —
and wraps the result in `CREATE OR REPLACE MACRO <id>(<ordered parameter
list>) AS TABLE`; a macro with zero parameters yields an empty parameter
list. -/
theorem generateMacroSQL_spec (mac : Macro) (mappings : Mappings) (segs : List Seg)
    (hsegs : stripComments mac.sqlTemplate.toList = render segs)
    (hw : wfSegs segs = true)
    (hms : ∀ p ∈ mappings, wordish p.1.toList = true
        ∧ braceFree p.2.toList = true ∧ dollarFree p.2.toList = true)
    (hpar : ∀ p ∈ mac.parameters, wordish p.name.toList = true)
    (hdeps : ∀ d ∈ mac.depends_on, (mget mappings d).isSome = true)
    (hbody : ∀ n, Seg.ph n ∈ segs →
        (∃ d ∈ mac.depends_on, d.toList = n)
          ∨ ∃ q ∈ mac.parameters, q.name.toList = n)
    (hid : braceFree mac.id.toList = true) :
    generateMacroSQL mac mappings =
      ("CREATE OR REPLACE MACRO ".toList ++ mac.id.toList
        ++ '(' :: joinComma (mac.parameters.map (fun p => p.name.toList))
        ++ ')' :: " AS TABLE
".toList
        ++ render (segs.map (resolveSeg mappings mac.parameters))).asString
    ∧ hasSub [lb, lb] (generateMacroSQL mac mappings).toList = false
    ∧ (mac.parameters = [] →
        joinComma (mac.parameters.map (fun p => p.name.toList)) = []) := by
  have hcover : ∀ n, Seg.ph n ∈ segs →
      (mappings.find? (fun p => p.1.toList == n)).isSome = true
        ∨ mac.parameters.any (fun q => q.name.toList == n) = true := by
    intro n hn
    rcases hbody n hn with ⟨d, hd, hdl⟩ | ⟨q, hq, hql⟩
    · left
      rw [← hdl, find?_toList_eq_mget]
      have hsome := hdeps d hd
      cases hval : mget mappings d with
      | none =>
        rw [hval] at hsome
        simp at hsome
      | some v => rfl
    · right
      rw [List.any_eq_true]
      exact ⟨q, hq, by simp only [beq_iff_eq]; exact hql⟩
  have hmain : generateMacroSQL mac mappings =
      ("CREATE OR REPLACE MACRO ".toList ++ mac.id.toList
        ++ '(' :: joinComma (mac.parameters.map (fun p => p.name.toList))
        ++ ')' :: " AS TABLE
".toList
        ++ render (segs.map (resolveSeg mappings mac.parameters))).asString := by
    simp only [generateMacroSQL]
    rw [hsegs]
    rw [foldl_tables_render mappings segs hw
      (fun p hp => ⟨(hms p hp).1, (hms p hp).2.1⟩)]
    rw [foldl_params_render mac.parameters _
      (wfSegs_substFoldTables mappings segs hw (fun p hp => (hms p hp).2.1)) hpar]
    rw [substFoldTables_eq_map, substFoldParams_eq_map, List.map_map]
    rw [show (resolveParam mac.parameters) ∘ (resolveTable mappings) =
      resolveSeg mappings mac.parameters from
        funext (resolveParam_resolveTable mappings mac.parameters)]
  refine ⟨hmain, ?_, fun h => by rw [h]; rfl⟩
  rw [hmain]
  apply hasSub_lb_eq_false
  have hA : braceFree "CREATE OR REPLACE MACRO ".toList = true := by decide
  have hJ : braceFree (joinComma (mac.parameters.map (fun p => p.name.toList))) = true := by
    apply joinComma_braceFree
    intro x hx
    obtain ⟨q, hq, rfl⟩ := List.mem_map.mp hx
    exact wordish_braceFree _ (hpar q hq)
  have hC : braceFree " AS TABLE
".toList = true := by decide
  have hR : braceFree (render (segs.map (resolveSeg mappings mac.parameters))) = true :=
    braceFree_render_resolved mappings mac.parameters segs hw
      (fun p hp => (hms p hp).2.1) hcover
  have comb : ∀ a b : List Char, braceFree a = true → braceFree b = true →
      braceFree (a ++ b) = true := by
    intro a b h1 h2
    simp only [braceFree] at h1 h2 ⊢
    simp [List.all_append, h1, h2]
  exact comb _ _
    (comb _ _
      (comb _ _ (comb _ _ hA hid)
        ((braceFree_cons _ _).mpr ⟨by decide, by decide, hJ⟩))
      ((braceFree_cons _ _).mpr ⟨by decide, by decide, hC⟩))
    hR


/-- C5 witness: the casemix macro (comment stripping, zero parameters) and a
macro referencing the same table placeholder twice, both against the binding
`fixe ↦ uploaded_table_7`. -/
theorem generateMacroSQL_spec_witness :
    (generateMacroSQL casemixMacro [("fixe", "uploaded_table_7")] =
        ("CREATE OR REPLACE MACRO ".toList ++ casemixMacro.id.toList
          ++ '(' :: joinComma (casemixMacro.parameters.map (fun p => p.name.toList))
          ++ ')' :: " AS TABLE\n".toList
          ++ render ([Seg.lit "SELECT\n    ghm2,\n    COUNT(*) AS effectif\nFROM ".toList,
              Seg.ph "fixe".toList,
              Seg.lit "\nWHERE SUBSTR(ghm2, 1, 2) != '90'\nGROUP BY ghm2\nORDER BY ghm2 ASC".toList].map
              (resolveSeg [("fixe", "uploaded_table_7")] casemixMacro.parameters))).asString
      ∧ hasSub [lb, lb]
          (generateMacroSQL casemixMacro [("fixe", "uploaded_table_7")]).toList = false
      ∧ (casemixMacro.parameters = [] →
          joinComma (casemixMacro.parameters.map (fun p => p.name.toList)) = []))
    ∧ (generateMacroSQL doubleRefMacro [("fixe", "uploaded_table_7")] =
        ("CREATE OR REPLACE MACRO ".toList ++ doubleRefMacro.id.toList
          ++ '(' :: joinComma (doubleRefMacro.parameters.map (fun p => p.name.toList))
          ++ ')' :: " AS TABLE\n".toList
          ++ render ([Seg.lit "SELECT a FROM ".toList, Seg.ph "fixe".toList,
              Seg.lit " JOIN ".toList, Seg.ph "fixe".toList,
              Seg.lit " USING (a)".toList].map
              (resolveSeg [("fixe", "uploaded_table_7")] doubleRefMacro.parameters))).asString
      ∧ hasSub [lb, lb]
          (generateMacroSQL doubleRefMacro [("fixe", "uploaded_table_7")]).toList = false
      ∧ (doubleRefMacro.parameters = [] →
          joinComma (doubleRefMacro.parameters.map (fun p => p.name.toList)) = [])) := by
  constructor
  · exact generateMacroSQL_spec casemixMacro [("fixe", "uploaded_table_7")]
      [Seg.lit "SELECT\n    ghm2,\n    COUNT(*) AS effectif\nFROM ".toList,
        Seg.ph "fixe".toList,
        Seg.lit "\nWHERE SUBSTR(ghm2, 1, 2) != '90'\nGROUP BY ghm2\nORDER BY ghm2 ASC".toList]
      (by decide) (by decide) (by decide) (by decide) (by decide)
      (by
        intro n hn
        simp only [List.mem_cons, List.not_mem_nil, or_false] at hn
        rcases hn with h | h | h
        · exact absurd h (by simp)
        · left
          exact ⟨"fixe", by decide, (Seg.ph.injEq _ _).mp h.symm⟩
        · exact absurd h (by simp))
      (by decide)
  · exact generateMacroSQL_spec doubleRefMacro [("fixe", "uploaded_table_7")]
      [Seg.lit "SELECT a FROM ".toList, Seg.ph "fixe".toList,
        Seg.lit " JOIN ".toList, Seg.ph "fixe".toList, Seg.lit " USING (a)".toList]
      (by decide) (by decide) (by decide) (by decide) (by decide)
      (by
        intro n hn
        simp only [List.mem_cons, List.not_mem_nil, or_false] at hn
        rcases hn with h | h | h | h | h
        · exact absurd h (by simp)
        · left
          exact ⟨"fixe", by decide, (Seg.ph.injEq _ _).mp h.symm⟩
        · exact absurd h (by simp)
        · left
          exact ⟨"fixe", by decide, (Seg.ph.injEq _ _).mp h.symm⟩
        · exact absurd h (by simp))
      (by decide)

end DuckMSI
